import Mathlib

/-!
Shallow embedding of `statsd.go` (package `statsd`, the single source file of
onokonem/statsd-go), together with theorems settling the frozen claims about
its specification.

Modelling choices, stated once:

* Go `float32` values (`sampleRate`, the random draw `rNum`) are modelled as
  rationals `ℚ`.  Every comparison the code performs (`sampleRate < 1`,
  `rNum <= sampleRate`) is an exact order comparison in both worlds, and every
  concrete rate exercised by the claims (`0`, `0.5`, `1`) is exactly
  representable as a `float32`, so nothing is lost on those inputs.
* `rand.New(rand.NewSource(time.Now().Unix())).Float32()` — a fresh generator
  deterministically seeded from the current wall-clock second — is modelled by
  an explicit stream `gen : ℕ → ℚ` handed to `Send`; `gen i` is the i-th value
  the freshly seeded generator would produce.  `SendAt` additionally makes the
  seeding explicit: a family `genOf : Int → ℕ → ℚ` mapping the Unix second to
  the stream of the generator seeded from it.  `Send` records in `drawsUsed`
  how many values of the stream it consumed (the source calls `r.Float32()`
  at most once).
* Go's `map[string]string` is modelled as an association list with unique
  keys; `m[k] = v` is `mapInsert`.  Go map iteration order is unspecified, so
  the insertion order used here is one admissible linearization; the claims
  proved below are about which writes happen and their payloads, not about a
  particular interleaving.
* The socket: `net.Dial` either yields a connection or (on error, which Open
  only logs) leaves `client.conn` a nil interface; this is `Option Unit`.
  `fmt.Fprintf(client.conn, ...)` with a nil interface receiver is a method
  call on a nil interface value, which panics in Go (there is no `recover`
  anywhere in the package), modelled by the `panicked` outcome; with a live
  connection the write either succeeds or returns an error that the code
  logs and ignores, modelled by a failure oracle `fail : String → Bool`.
-/

namespace Statsd

/-- Zero-pad a decimal digit string on the left to width 6, as `%f`'s six
fractional digits require. -/
def padZeros6 (s : String) : String :=
  String.mk (List.replicate (6 - s.length) '0') ++ s

/-- Rendering of Go's `%f` verb (default precision: six fractional digits,
rounding to nearest) on our rational model of `float32`.  Used by
`fmt.Sprintf("%s|@%f", value, sampleRate)` in `Send`. -/
def formatFloat6 (q : ℚ) : String :=
  let sign := if q < 0 then "-" else ""
  let n : Int := ⌊|q| * 1000000 + 1/2⌋
  let i := n.toNat
  sign ++ toString (i / 1000000) ++ "." ++ padZeros6 (toString (i % 1000000))

/-- Association-list model of Go's `map[string]string`; keys are unique. -/
abbrev StringMap := List (String × String)

/-- Model of the Go map assignment `m[k] = v`: overwrite the entry if the key
is present, append it otherwise. -/
def mapInsert (m : StringMap) (k v : String) : StringMap :=
  if m.any (fun p => p.1 = k) then
    m.map (fun p => if p.1 = k then (k, v) else p)
  else
    m ++ [(k, v)]

/-- Result of one `Send` call: the payload of each `fmt.Fprintf` write the
call performs, in map-iteration order, and how many random values the call
drew from the freshly seeded generator. -/
structure SendResult where
  payloads : List String
  drawsUsed : ℕ
  deriving DecidableEq, Repr

/-- Embedding of `StatsdClient.Send(data map[string]string, sampleRate float32)`.
If `sampleRate < 1` it draws one random float (`gen 0`); if the draw is
`≤ sampleRate` every entry's value is suffixed `"|@<rate>"` and kept, else the
sampled map stays empty.  If `sampleRate ≥ 1` the data passes through
untouched.  Each surviving entry `(k, v)` becomes one write with payload
`k ++ ":" ++ v`. -/
def Send (data : StringMap) (sampleRate : ℚ) (gen : ℕ → ℚ) : SendResult :=
  let sampled :
      StringMap × ℕ :=
    if sampleRate < 1 then
      let rNum := gen 0
      (if rNum ≤ sampleRate then
        data.map (fun p => (p.1, p.2 ++ "|@" ++ formatFloat6 sampleRate))
      else [], 1)
    else
      (data, 0)
  { payloads := sampled.1.map (fun p => p.1 ++ ":" ++ p.2)
    drawsUsed := sampled.2 }

/-- Embedding of `Send` with the per-call reseeding made explicit:
`genOf now` is the stream of the generator seeded from the Unix second `now`,
exactly as `rand.New(rand.NewSource(time.Now().Unix()))` builds a fresh
generator from the clock on every call and from nothing else. -/
def SendAt (genOf : Int → ℕ → ℚ) (data : StringMap) (sampleRate : ℚ)
    (now : Int) : SendResult :=
  Send data sampleRate (genOf now)

/-- Embedding of `UpdateStats(stats []string, delta int, sampleRate float32,
metric string)`: build the map entry `stat ↦ "<delta>|<metric>"` for each name
and hand the map to `Send`. -/
def UpdateStats (stats : List String) (delta : Int) (sampleRate : ℚ)
    (metric : String) (gen : ℕ → ℚ) : SendResult :=
  let statsToSend :=
    stats.foldl (fun m stat => mapInsert m stat (toString delta ++ "|" ++ metric)) []
  Send statsToSend sampleRate gen

/-- Embedding of `Increment(stat string)`. -/
def Increment (stat : String) (gen : ℕ → ℚ) : SendResult :=
  UpdateStats [stat] 1 1 "c" gen

/-- Embedding of `IncrementWithSampling(stat string, sampleRate float32)`. -/
def IncrementWithSampling (stat : String) (sampleRate : ℚ) (gen : ℕ → ℚ) :
    SendResult :=
  UpdateStats [stat] 1 sampleRate ("c") gen

/-- Embedding of `IncrementByValue(stat string, val int)`. -/
def IncrementByValue (stat : String) (val : Int) (gen : ℕ → ℚ) : SendResult :=
  UpdateStats [stat] val 1 "c" gen

/-- Embedding of `Decrement(stat string)`. -/
def Decrement (stat : String) (gen : ℕ → ℚ) : SendResult :=
  UpdateStats [stat] (-1) 1 "c" gen

/-- Embedding of `DecrementWithSampling(stat string, sampleRate float32)`. -/
def DecrementWithSampling (stat : String) (sampleRate : ℚ) (gen : ℕ → ℚ) :
    SendResult :=
  UpdateStats [stat] (-1) sampleRate ("c") gen

/-- Embedding of `Counter(stat string, value int)`.  The source body is
`client.UpdateStats(stats[:], 1, 1, "c")`: the `value` argument is never
used. -/
def Counter (stat : String) (value : Int) (gen : ℕ → ℚ) : SendResult :=
  UpdateStats [stat] 1 1 "c" gen

/-- Embedding of `Gauge(stat string, value int)`. -/
def Gauge (stat : String) (value : Int) (gen : ℕ → ℚ) : SendResult :=
  UpdateStats [stat] value 1 "g" gen

/-- Embedding of `GaugeWithSampling(stat string, value int, sampleRate float32)`. -/
def GaugeWithSampling (stat : String) (value : Int) (sampleRate : ℚ)
    (gen : ℕ → ℚ) : SendResult :=
  UpdateStats [stat] value sampleRate ("g") gen

/-- Embedding of `Timing(stat string, time int64)`: the value string is
`fmt.Sprintf("%d|ms", time)` and the singleton map goes to `Send` at rate 1. -/
def Timing (stat : String) (time : Int) (gen : ℕ → ℚ) : SendResult :=
  Send [(stat, toString time ++ "|ms")] 1 gen

/-- Embedding of `TimingWithSampleRate(stat string, time int64, sampleRate float32)`. -/
def TimingWithSampleRate (stat : String) (time : Int) (sampleRate : ℚ)
    (gen : ℕ → ℚ) : SendResult :=
  Send [(stat, toString time ++ "|ms")] sampleRate gen

/-- Outcome of one `fmt.Fprintf(client.conn, payload)` write. -/
inductive WriteOutcome where
  /-- The write succeeded and carried this payload. -/
  | written : String → WriteOutcome
  /-- The write was attempted with this payload and returned an error, which
  the code logs and ignores. -/
  | failed : String → WriteOutcome
  /-- `client.conn` was a nil interface (a failed `Open`): the `Write` method
  call on the nil interface panics and the process crashes. -/
  | panicked : WriteOutcome
  deriving DecidableEq, Repr

/-- One `fmt.Fprintf(client.conn, payload)` call: with no connection the
method call on the nil interface panics; with a connection the failure oracle
decides whether the write errors (the error is logged, not returned). -/
def fprintfConn (conn : Option Unit) (fail : String → Bool) (payload : String) :
    WriteOutcome :=
  match conn with
  | none => .panicked
  | some _ => if fail payload then .failed payload else .written payload

/-- The write loop at the bottom of `Send`: attempt every payload in order;
a logged write error does not stop the loop, a panic (nil connection) aborts
the process at the first write. -/
def sendWriteLoop (conn : Option Unit) (fail : String → Bool) :
    List String → List WriteOutcome
  | [] => []
  | p :: rest =>
    match fprintfConn conn fail p with
    | .panicked => [.panicked]
    | o => o :: sendWriteLoop conn fail rest

/-- Full effect of one `Send` call on a client whose connection state is
`conn`: compute the sampled payloads, then run the write loop over them. -/
def sendOutcomes (conn : Option Unit) (fail : String → Bool) (data : StringMap)
    (sampleRate : ℚ) (gen : ℕ → ℚ) : List WriteOutcome :=
  sendWriteLoop conn fail (Send data sampleRate gen).payloads

/-- One public operation of the client, with its arguments: the ten wrapper
methods plus the two further exported operations, the generic update
`UpdateStats` and the raw `Send` — the complete public surface of the
package. -/
inductive PublicCall where
  | increment (stat : String)
  | incrementWithSampling (stat : String) (sampleRate : ℚ)
  | incrementByValue (stat : String) (val : Int)
  | decrement (stat : String)
  | decrementWithSampling (stat : String) (sampleRate : ℚ)
  | counter (stat : String) (value : Int)
  | gauge (stat : String) (value : Int)
  | gaugeWithSampling (stat : String) (value : Int) (sampleRate : ℚ)
  | timing (stat : String) (time : Int)
  | timingWithSampleRate (stat : String) (time : Int) (sampleRate : ℚ)
  | updateStats (stats : List String) (delta : Int) (sampleRate : ℚ)
      (metric : String)
  | send (data : StringMap) (sampleRate : ℚ)

/-- The sample rate a public call hands to `Send` (the unsampled methods all
pass the literal `1`). -/
def PublicCall.rate : PublicCall → ℚ
  | .incrementWithSampling _ r => r
  | .decrementWithSampling _ r => r
  | .gaugeWithSampling _ _ r => r
  | .timingWithSampleRate _ _ r => r
  | .updateStats _ _ r _ => r
  | .send _ r => r
  | _ => 1

/-- Whether the call is one of the ten typed wrapper methods, which fix the
metric type themselves; the generic `UpdateStats` and the raw `Send` instead
pass a caller-supplied metric or value string through unchanged. -/
def PublicCall.isTypedWrapper : PublicCall → Bool
  | .updateStats _ _ _ _ => false
  | .send _ _ => false
  | _ => true

/-- Dispatch a public call to its embedding. -/
def runCall : PublicCall → (ℕ → ℚ) → SendResult
  | .increment stat, gen => Increment stat gen
  | .incrementWithSampling stat r, gen => IncrementWithSampling stat r gen
  | .incrementByValue stat val, gen => IncrementByValue stat val gen
  | .decrement stat, gen => Decrement stat gen
  | .decrementWithSampling stat r, gen => DecrementWithSampling stat r gen
  | .counter stat value, gen => Counter stat value gen
  | .gauge stat value, gen => Gauge stat value gen
  | .gaugeWithSampling stat value r, gen => GaugeWithSampling stat value r gen
  | .timing stat time, gen => Timing stat time gen
  | .timingWithSampleRate stat time r, gen => TimingWithSampleRate stat time r gen
  | .updateStats stats delta r metric, gen => UpdateStats stats delta r metric gen
  | .send data r, gen => Send data r gen

/-! ### Helper lemmas -/

theorem strAppendAssoc (a b c : String) : a ++ b ++ c = a ++ (b ++ c) := by
  apply String.ext
  simp [String.data_append, List.append_assoc]

theorem strAppendNil (a : String) : a ++ "" = a := by
  apply String.ext
  simp [String.data_append]

theorem mapInsert_nil (k v : String) : mapInsert [] k v = [(k, v)] := by
  simp [mapInsert]

theorem formatFloat6_of_nonneg (q : ℚ) (n : ℕ) (hq : 0 ≤ q)
    (hn : ⌊q * 1000000 + 1 / 2⌋ = (n : ℤ)) :
    formatFloat6 q =
      toString (n / 1000000) ++ "." ++ padZeros6 (toString (n % 1000000)) := by
  simp only [formatFloat6, abs_of_nonneg hq, hn, if_neg (not_lt.mpr hq),
    Int.toNat_natCast]
  apply String.ext
  simp [String.data_append]

theorem formatFloat6_zero : formatFloat6 0 = "0.000000" := by
  rw [formatFloat6_of_nonneg 0 0 le_rfl (by norm_num)]
  rfl

theorem formatFloat6_half : formatFloat6 (1 / 2) = "0.500000" := by
  rw [formatFloat6_of_nonneg (1 / 2) 500000 (by positivity) (by norm_num)]
  rfl

theorem Send_sampled_in {rate : ℚ} {gen : ℕ → ℚ} (data : StringMap)
    (h1 : rate < 1) (h2 : gen 0 ≤ rate) :
    Send data rate gen =
      { payloads :=
          data.map (fun p => p.1 ++ ":" ++ (p.2 ++ "|@" ++ formatFloat6 rate))
        drawsUsed := 1 } := by
  simp only [Send, if_pos h1, if_pos h2, List.map_map]
  rfl

theorem Send_sampled_out {rate : ℚ} {gen : ℕ → ℚ} (data : StringMap)
    (h1 : rate < 1) (h2 : ¬ gen 0 ≤ rate) :
    Send data rate gen = { payloads := [], drawsUsed := 1 } := by
  simp only [Send, if_pos h1, if_neg h2]
  rfl

theorem Send_unsampled {rate : ℚ} (data : StringMap) (gen : ℕ → ℚ)
    (h1 : ¬ rate < 1) :
    Send data rate gen =
      { payloads := data.map (fun p => p.1 ++ ":" ++ p.2), drawsUsed := 0 } := by
  simp only [Send, if_neg h1]

theorem updateStats_singleton (stat : String) (delta : Int) (rate : ℚ)
    (metric : String) (gen : ℕ → ℚ) :
    UpdateStats [stat] delta rate metric gen =
      Send [(stat, toString delta ++ "|" ++ metric)] rate gen := by
  simp only [UpdateStats, List.foldl_cons, List.foldl_nil, mapInsert_nil]

theorem strBarMs (a : String) : a ++ "|" ++ "ms" = a ++ "|ms" := by
  rw [strAppendAssoc]
  rfl

theorem foldl_mapInsert_const (v : String) (stats : List String) :
    ∀ ks : List String, ks.Nodup →
    ∃ names : List String, names.Nodup ∧
      names.toFinset = ks.toFinset ∪ stats.toFinset ∧
      stats.foldl (fun m stat => mapInsert m stat v)
          (ks.map (fun k => (k, v))) =
        names.map (fun k => (k, v)) := by
  induction stats with
  | nil =>
    intro ks hk
    exact ⟨ks, hk, by simp, by simp⟩
  | cons stat rest ih =>
    intro ks hk
    rw [List.foldl_cons]
    by_cases hs : stat ∈ ks
    · have hany : ((ks.map (fun k => (k, v))).any
          (fun p => decide (p.1 = stat))) = true := by
        rw [List.any_eq_true]
        exact ⟨(stat, v), List.mem_map_of_mem _ hs, by simp⟩
      have hacc : mapInsert (ks.map (fun k => (k, v))) stat v =
          ks.map (fun k => (k, v)) := by
        simp only [mapInsert, if_pos hany, List.map_map]
        apply List.map_congr_left
        intro k _
        by_cases hks : k = stat
        · subst hks
          simp [Function.comp]
        · simp [Function.comp, hks]
      rw [hacc]
      obtain ⟨names, h1, h2, h3⟩ := ih ks hk
      refine ⟨names, h1, ?_, h3⟩
      rw [h2]
      ext a
      simp only [Finset.mem_union, List.mem_toFinset, List.toFinset_cons,
        Finset.mem_insert]
      constructor
      · rintro (h | h)
        · exact Or.inl h
        · exact Or.inr (Or.inr h)
      · rintro (h | h | h)
        · exact Or.inl h
        · exact Or.inl (h ▸ hs)
        · exact Or.inr h
    · have hany : ((ks.map (fun k => (k, v))).any
          (fun p => decide (p.1 = stat))) ≠ true := by
        intro hcontra
        rw [List.any_eq_true] at hcontra
        obtain ⟨p, hmem, hdec⟩ := hcontra
        obtain ⟨k, hk2, rfl⟩ := List.mem_map.mp hmem
        exact hs ((of_decide_eq_true hdec) ▸ hk2)
      have hacc : mapInsert (ks.map (fun k => (k, v))) stat v =
          (ks ++ [stat]).map (fun k => (k, v)) := by
        simp only [mapInsert, if_neg hany, List.map_append]
        rfl
      rw [hacc]
      have hknodup : (ks ++ [stat]).Nodup := by
        simp [List.nodup_append, hk, hs]
      obtain ⟨names, h1, h2, h3⟩ := ih (ks ++ [stat]) hknodup
      refine ⟨names, h1, ?_, h3⟩
      rw [h2]
      ext a
      simp only [Finset.mem_union, List.mem_toFinset, List.toFinset_cons,
        Finset.mem_insert, List.toFinset_append, List.mem_append,
        List.mem_singleton]
      tauto

theorem mem_send_singleton {stat v : String} {rate : ℚ} {gen : ℕ → ℚ}
    {p : String} (hp : p ∈ (Send [(stat, v)] rate gen).payloads) :
    p = stat ++ ":" ++
      (v ++ (if rate < 1 then "|@" ++ formatFloat6 rate else "")) := by
  by_cases h1 : rate < 1
  · by_cases h2 : gen 0 ≤ rate
    · rw [Send_sampled_in _ h1 h2] at hp
      simp only [List.map_cons, List.map_nil, List.mem_singleton] at hp
      rw [hp, if_pos h1, strAppendAssoc v]
    · rw [Send_sampled_out _ h1 h2] at hp
      simp at hp
  · rw [Send_unsampled _ _ h1] at hp
    simp only [List.map_cons, List.map_nil, List.mem_singleton] at hp
    rw [hp, if_neg h1, strAppendNil]

theorem mem_send {data : StringMap} {rate : ℚ} {gen : ℕ → ℚ} {p : String}
    (hp : p ∈ (Send data rate gen).payloads) :
    ∃ kv, kv ∈ data ∧
      p = kv.1 ++ ":" ++
        (kv.2 ++ (if rate < 1 then "|@" ++ formatFloat6 rate else "")) := by
  by_cases h1 : rate < 1
  · by_cases h2 : gen 0 ≤ rate
    · rw [Send_sampled_in _ h1 h2] at hp
      simp only [List.mem_map] at hp
      obtain ⟨kv, hkv, rfl⟩ := hp
      exact ⟨kv, hkv, by rw [if_pos h1, strAppendAssoc kv.2]⟩
    · rw [Send_sampled_out _ h1 h2] at hp
      simp at hp
  · rw [Send_unsampled _ _ h1] at hp
    simp only [List.mem_map] at hp
    obtain ⟨kv, hkv, rfl⟩ := hp
    exact ⟨kv, hkv, by rw [if_neg h1, strAppendNil]⟩

theorem append_getLast (a t : String) (c : Char) (l : List Char)
    (h : t.data = l ++ [c]) : (a ++ t).data.getLast? = some c := by
  rw [String.data_append, h, ← List.append_assoc]
  exact List.getLast?_concat _

/-! ### Claim theorems -/

/-- C1: for every mapping and every rate `< 1`, `Send` draws exactly one
random float per call (never one per metric); if the draw is `≤ rate` every
metric is sent with its value suffixed `"|@<rate>"`, otherwise no metric in
the mapping is sent. -/
theorem send_sampled_batch_one_draw (data : StringMap) (rate : ℚ)
    (gen : ℕ → ℚ) (h : rate < 1) :
    (Send data rate gen).drawsUsed = 1 ∧
    (gen 0 ≤ rate →
      (Send data rate gen).payloads =
        data.map (fun p => p.1 ++ ":" ++ (p.2 ++ "|@" ++ formatFloat6 rate))) ∧
    (¬ gen 0 ≤ rate → (Send data rate gen).payloads = []) := by
  by_cases h2 : gen 0 ≤ rate
  · rw [Send_sampled_in data h h2]
    simp [h2]
  · rw [Send_sampled_out data h h2]
    simp [h2]

theorem send_sampled_batch_one_draw_witness :
    (Send [("x", "1|c")] (1 / 2) (fun _ => 1 / 4)).drawsUsed = 1 ∧
    ((fun _ => (1 / 4 : ℚ)) 0 ≤ 1 / 2 →
      (Send [("x", "1|c")] (1 / 2) (fun _ => 1 / 4)).payloads =
        [("x", "1|c")].map
          (fun p => p.1 ++ ":" ++ (p.2 ++ "|@" ++ formatFloat6 (1 / 2)))) ∧
    (¬ (fun _ => (1 / 4 : ℚ)) 0 ≤ 1 / 2 →
      (Send [("x", "1|c")] (1 / 2) (fun _ => 1 / 4)).payloads = []) :=
  send_sampled_batch_one_draw [("x", "1|c")] (1 / 2) (fun _ => 1 / 4)
    one_half_lt_one

/-- C2: for every rate `≥ 1`, `Send` on a singleton mapping performs exactly
one write, whose payload is exactly `name ++ ":" ++ v` with no `@` suffix,
and the random stream has no influence on the result (no draw is consumed,
and any two streams yield the same result). -/
theorem send_unsampled_singleton (name v : String) (rate : ℚ)
    (gen gen2 : ℕ → ℚ) (h : 1 ≤ rate) :
    (Send [(name, v)] rate gen).payloads = [name ++ ":" ++ v] ∧
    (Send [(name, v)] rate gen).drawsUsed = 0 ∧
    Send [(name, v)] rate gen = Send [(name, v)] rate gen2 := by
  rw [Send_unsampled _ gen (not_lt.mpr h), Send_unsampled _ gen2 (not_lt.mpr h)]
  simp

theorem send_unsampled_singleton_witness :
    (Send [("x", "1|c")] 1 (fun _ => 0)).payloads = ["x" ++ ":" ++ "1|c"] ∧
    (Send [("x", "1|c")] 1 (fun _ => 0)).drawsUsed = 0 ∧
    Send [("x", "1|c")] 1 (fun _ => 0) = Send [("x", "1|c")] 1 (fun _ => 1 / 2) :=
  send_unsampled_singleton ("x") ("1|c") 1 (fun _ => 0) (fun _ => 1 / 2) le_rfl

/-- C3, counterexample to the claim as stated: at rate `0` the code still
sends the whole batch when the random draw is exactly `0` (a value
`rand.Float32`, which ranges over `[0, 1)`, can return), because the test is
`rNum <= sampleRate`; the suffixed payload below is written, so `Send` does
not perform zero writes for every possible draw. -/
theorem send_rate_zero_claim_false :
    (Send [("x", "1|c")] 0 (fun _ => 0)).payloads = ["x:1|c|@0.000000"] ∧
    (Send [("x", "1|c")] 0 (fun _ => 0)).payloads ≠ [] := by
  rw [Send_sampled_in _ zero_lt_one le_rfl]
  rw [List.map_cons, List.map_nil, formatFloat6_zero]
  exact ⟨rfl, by simp⟩

/-- C3, amended: at rate `0`, `Send` performs zero writes whenever the random
draw is strictly positive (only the measure-zero draw of exactly `0` sends
the batch). -/
theorem send_rate_zero_positive_draw (data : StringMap) (gen : ℕ → ℚ)
    (h : 0 < gen 0) :
    (Send data 0 gen).payloads = [] := by
  rw [Send_sampled_out data zero_lt_one (not_le.mpr h)]

theorem send_rate_zero_positive_draw_witness :
    (Send [("x", "1|c")] 0 (fun _ => 1)).payloads = [] :=
  send_rate_zero_positive_draw [("x", "1|c")] (fun _ => 1) zero_lt_one

/-- C4: `Counter(name, value)` ignores its `value` argument: for every value
the formatted line is `name ++ ":1|c"`, and the call is the very same
computation as `Increment(name)`. -/
theorem counter_ignores_value (stat : String) (value : Int) (gen : ℕ → ℚ) :
    (Counter stat value gen).payloads = [stat ++ ":1|c"] ∧
    Counter stat value gen = Increment stat gen := by
  refine ⟨?_, rfl⟩
  show (UpdateStats [stat] 1 1 "c" gen).payloads = _
  rw [updateStats_singleton, Send_unsampled _ _ (lt_irrefl 1)]
  simp only [List.map_cons, List.map_nil]
  rw [show (toString (1 : Int) ++ "|" ++ "c" : String) = "1|c" from rfl,
    strAppendAssoc]
  rfl

/-- C5: the claim says a client whose `Open` failed silently fails on every
subsequent send without crashing; in the code `client.conn` is then a nil
interface and the write loop's `fmt.Fprintf(client.conn, ...)` is a method
call on a nil interface value, which panics: evaluated at the failing input
(no connection, the singleton payload of `Increment("x")`), the first write
panics instead of logging. -/
theorem send_after_failed_open_panics :
    sendOutcomes none (fun _ => false) [("x", "1|c")] 1 (fun _ => 0) =
      [WriteOutcome.panicked] := by
  rw [sendOutcomes, Send_unsampled _ _ (lt_irrefl 1)]
  rfl

/-- C6: on a client with an open socket, `Send` returns no error for any
input: every sampled payload is attempted exactly once in order, a failed
write merely becomes a logged `failed` outcome, and the writes for the
remaining metrics still happen whatever the failure oracle says. -/
theorem send_write_failures_do_not_abort (fail : String → Bool)
    (data : StringMap) (rate : ℚ) (gen : ℕ → ℚ) :
    sendOutcomes (some ()) fail data rate gen =
      (Send data rate gen).payloads.map
        (fun p => if fail p then WriteOutcome.failed p
                  else WriteOutcome.written p) := by
  rw [sendOutcomes]
  generalize (Send data rate gen).payloads = ps
  induction ps with
  | nil => rfl
  | cons p rest ih =>
    cases hf : fail p <;>
      simp [sendWriteLoop, fprintfConn, hf, ih]

/-- C7: a sampled-in `IncrementWithSampling("x", 0.5)` produces exactly the
payload `"x:1|c|@0.500000"`: the rate suffix is rendered with `%f`'s default
six-digit fixed precision. -/
theorem incrementWithSampling_half_payload (gen : ℕ → ℚ)
    (h : gen 0 ≤ 1 / 2) :
    (IncrementWithSampling ("x") (1 / 2) gen).payloads = ["x:1|c|@0.500000"] := by
  show (UpdateStats ["x"] 1 (1 / 2) "c" gen).payloads = _
  rw [updateStats_singleton, Send_sampled_in _ one_half_lt_one h]
  rw [List.map_cons, List.map_nil, formatFloat6_half]
  rfl

theorem incrementWithSampling_half_payload_witness :
    (IncrementWithSampling ("x") (1 / 2) (fun _ => 0)).payloads =
      ["x:1|c|@0.500000"] :=
  incrementWithSampling_half_payload (fun _ => 0) one_half_pos.le

/-- C8: the sampling decision is a deterministic function of the wall-clock
second and the rate: two `Send` calls with rate `< 1` in the same second (the
generator family `genOf` maps each Unix second to the stream of the generator
reseeded from it, and there is no other state) obtain the identical draw and
make the identical send-or-drop decision. -/
theorem send_same_second_same_decision (genOf : Int → ℕ → ℚ)
    (dataA dataB : StringMap) (rate : ℚ) (tA tB : Int)
    (hrate : rate < 1) (ht : tA = tB) (hA : dataA ≠ []) (hB : dataB ≠ []) :
    genOf tA 0 = genOf tB 0 ∧
    ((SendAt genOf dataA rate tA).payloads = [] ↔
      (SendAt genOf dataB rate tB).payloads = []) := by
  subst ht
  refine ⟨rfl, ?_⟩
  by_cases h : genOf tA 0 ≤ rate
  · rw [SendAt, SendAt, Send_sampled_in dataA hrate h,
      Send_sampled_in dataB hrate h]
    simp [hA, hB]
  · rw [SendAt, SendAt, Send_sampled_out dataA hrate h,
      Send_sampled_out dataB hrate h]

/-- C9, counterexample to the claim as stated: the exported generic update is
itself a public operation, and `UpdateStats(["x"], 5, 1, "zz")` emits the
payload `"x:5|zz"`, which admits no decomposition
`<metric-name>:<delta-or-value>|<type>` with the type one of `c`, `g`, `ms`
(any such payload ends in the character `c`, `g` or `s`, but this one ends in
`z`; no suffix is in play since the rate is `1`). -/
theorem payload_wire_format_counterexample :
    "x:5|zz" ∈ (UpdateStats ["x"] 5 1 "zz" (fun _ => 0)).payloads ∧
    ¬ ∃ (stat : String) (d : Int) (ty : String),
        (ty = "c" ∨ ty = "g" ∨ ty = "ms") ∧
        "x:5|zz" = stat ++ ":" ++
          (toString d ++ "|" ++ ty ++
            (if (1 : ℚ) < 1 then "|@" ++ formatFloat6 1 else "")) := by
  constructor
  · rw [show UpdateStats ["x"] 5 1 "zz" (fun _ => 0) =
        Send [("x", toString (5 : Int) ++ "|" ++ "zz")] 1 (fun _ => 0) from
      updateStats_singleton ("x") 5 1 ("zz") (fun _ => 0)]
    rw [Send_unsampled _ _ (lt_irrefl 1)]
    simp only [List.map_cons, List.map_nil, List.mem_singleton]
    rfl
  · rintro ⟨stat, d, ty, hty, heq⟩
    rw [if_neg (lt_irrefl 1), strAppendNil, ← strAppendAssoc] at heq
    rcases hty with rfl | rfl | rfl
    · have hR := append_getLast (stat ++ ":" ++ (toString d ++ "|")) "c" 'c' [] rfl
      rw [← heq] at hR
      exact absurd hR (by decide)
    · have hR := append_getLast (stat ++ ":" ++ (toString d ++ "|")) "g" 'g' [] rfl
      rw [← heq] at hR
      exact absurd hR (by decide)
    · have hR := append_getLast (stat ++ ":" ++ (toString d ++ "|")) "ms" 's'
        (['m']) rfl
      rw [← heq] at hR
      exact absurd hR (by decide)

/-- C9, amended: every datagram payload produced by any public operation —
the ten wrapper methods plus the exported generic `UpdateStats` and raw
`Send` — has the form `<metric-name>:<body>[|@<sample-rate>]`, the suffix
present exactly when the call's rate is `< 1` (payloads then exist only when
the probabilistic draw selected the batch); for the ten typed wrapper
operations the body is moreover `<delta-or-value>|<type>` with the type one
of `c`, `g`, `ms`, while the generic `UpdateStats` and the raw `Send` pass
the caller-supplied metric or value string through unchanged, so the type set
is not constrained for them. -/
theorem payload_wire_format (c : PublicCall) (gen : ℕ → ℚ) (p : String)
    (hp : p ∈ (runCall c gen).payloads) :
    (∃ stat body : String,
      p = stat ++ ":" ++
        (body ++ (if c.rate < 1 then "|@" ++ formatFloat6 c.rate else ""))) ∧
    (c.isTypedWrapper = true →
      ∃ (stat : String) (d : Int) (ty : String),
        (ty = "c" ∨ ty = "g" ∨ ty = "ms") ∧
        p = stat ++ ":" ++
          (toString d ++ "|" ++ ty ++
            (if c.rate < 1 then "|@" ++ formatFloat6 c.rate else ""))) := by
  cases c with
  | increment stat =>
    rw [show runCall (PublicCall.increment stat) gen =
        Send [(stat, toString (1 : Int) ++ "|" ++ "c")] 1 gen from
      updateStats_singleton stat 1 1 "c" gen] at hp
    have h := mem_send_singleton hp
    exact ⟨⟨stat, toString (1 : Int) ++ "|" ++ "c", h⟩,
      fun _ => ⟨stat, 1, "c", Or.inl rfl, h⟩⟩
  | incrementWithSampling stat r =>
    rw [show runCall (PublicCall.incrementWithSampling stat r) gen =
        Send [(stat, toString (1 : Int) ++ "|" ++ "c")] r gen from
      updateStats_singleton stat 1 r ("c") gen] at hp
    have h := mem_send_singleton hp
    exact ⟨⟨stat, toString (1 : Int) ++ "|" ++ "c", h⟩,
      fun _ => ⟨stat, 1, "c", Or.inl rfl, h⟩⟩
  | incrementByValue stat val =>
    rw [show runCall (PublicCall.incrementByValue stat val) gen =
        Send [(stat, toString val ++ "|" ++ "c")] 1 gen from
      updateStats_singleton stat val 1 "c" gen] at hp
    have h := mem_send_singleton hp
    exact ⟨⟨stat, toString val ++ "|" ++ "c", h⟩,
      fun _ => ⟨stat, val, "c", Or.inl rfl, h⟩⟩
  | decrement stat =>
    rw [show runCall (PublicCall.decrement stat) gen =
        Send [(stat, toString (-1 : Int) ++ "|" ++ "c")] 1 gen from
      updateStats_singleton stat (-1) 1 "c" gen] at hp
    have h := mem_send_singleton hp
    exact ⟨⟨stat, toString (-1 : Int) ++ "|" ++ "c", h⟩,
      fun _ => ⟨stat, -1, "c", Or.inl rfl, h⟩⟩
  | decrementWithSampling stat r =>
    rw [show runCall (PublicCall.decrementWithSampling stat r) gen =
        Send [(stat, toString (-1 : Int) ++ "|" ++ "c")] r gen from
      updateStats_singleton stat (-1) r ("c") gen] at hp
    have h := mem_send_singleton hp
    exact ⟨⟨stat, toString (-1 : Int) ++ "|" ++ "c", h⟩,
      fun _ => ⟨stat, -1, "c", Or.inl rfl, h⟩⟩
  | counter stat value =>
    rw [show runCall (PublicCall.counter stat value) gen =
        Send [(stat, toString (1 : Int) ++ "|" ++ "c")] 1 gen from
      updateStats_singleton stat 1 1 "c" gen] at hp
    have h := mem_send_singleton hp
    exact ⟨⟨stat, toString (1 : Int) ++ "|" ++ "c", h⟩,
      fun _ => ⟨stat, 1, "c", Or.inl rfl, h⟩⟩
  | gauge stat value =>
    rw [show runCall (PublicCall.gauge stat value) gen =
        Send [(stat, toString value ++ "|" ++ "g")] 1 gen from
      updateStats_singleton stat value 1 "g" gen] at hp
    have h := mem_send_singleton hp
    exact ⟨⟨stat, toString value ++ "|" ++ "g", h⟩,
      fun _ => ⟨stat, value, "g", Or.inr (Or.inl rfl), h⟩⟩
  | gaugeWithSampling stat value r =>
    rw [show runCall (PublicCall.gaugeWithSampling stat value r) gen =
        Send [(stat, toString value ++ "|" ++ "g")] r gen from
      updateStats_singleton stat value r ("g") gen] at hp
    have h := mem_send_singleton hp
    exact ⟨⟨stat, toString value ++ "|" ++ "g", h⟩,
      fun _ => ⟨stat, value, "g", Or.inr (Or.inl rfl), h⟩⟩
  | timing stat time =>
    have h := mem_send_singleton
      (show p ∈ (Send [(stat, toString time ++ "|ms")] 1 gen).payloads from hp)
    refine ⟨⟨stat, toString time ++ "|ms", h⟩,
      fun _ => ⟨stat, time, "ms", Or.inr (Or.inr rfl), ?_⟩⟩
    rw [strBarMs]
    exact h
  | timingWithSampleRate stat time r =>
    have h := mem_send_singleton
      (show p ∈ (Send [(stat, toString time ++ "|ms")] r gen).payloads from hp)
    refine ⟨⟨stat, toString time ++ "|ms", h⟩,
      fun _ => ⟨stat, time, "ms", Or.inr (Or.inr rfl), ?_⟩⟩
    rw [strBarMs]
    exact h
  | updateStats stats delta r metric =>
    obtain ⟨kv, _, hpe⟩ := mem_send
      (show p ∈ (Send (stats.foldl
          (fun m stat => mapInsert m stat (toString delta ++ "|" ++ metric)) [])
          r gen).payloads from hp)
    exact ⟨⟨kv.1, kv.2, hpe⟩, fun hw => Bool.noConfusion hw⟩
  | send data r =>
    obtain ⟨kv, _, hpe⟩ := mem_send
      (show p ∈ (Send data r gen).payloads from hp)
    exact ⟨⟨kv.1, kv.2, hpe⟩, fun hw => Bool.noConfusion hw⟩

theorem payload_wire_format_witness :
    (∃ stat body : String,
      "x:1|c" = stat ++ ":" ++
        (body ++
          (if (PublicCall.increment ("x")).rate < 1 then
            "|@" ++ formatFloat6 (PublicCall.increment ("x")).rate
          else ""))) ∧
    ((PublicCall.increment ("x")).isTypedWrapper = true →
      ∃ (stat : String) (d : Int) (ty : String),
        (ty = "c" ∨ ty = "g" ∨ ty = "ms") ∧
        "x:1|c" = stat ++ ":" ++
          (toString d ++ "|" ++ ty ++
            (if (PublicCall.increment ("x")).rate < 1 then
              "|@" ++ formatFloat6 (PublicCall.increment ("x")).rate
            else ""))) := by
  apply payload_wire_format (PublicCall.increment ("x")) (fun _ => 0) "x:1|c"
  rw [show runCall (PublicCall.increment ("x")) (fun _ => 0) =
      Send [("x", toString (1 : Int) ++ "|" ++ "c")] 1 (fun _ => 0) from
    updateStats_singleton ("x") 1 1 "c" (fun _ => 0)]
  rw [Send_unsampled _ _ (lt_irrefl 1)]
  simp only [List.map_cons, List.map_nil, List.mem_singleton]
  rfl

/-- C10: for every list of metric names and every rate `≥ 1`, `UpdateStats`
performs exactly one write per distinct name in the list (duplicates collapse
because the batch is a map keyed by name, so the payload count is the number
of distinct names, and an empty list produces zero writes). -/
theorem updateStats_distinct_writes (stats : List String) (delta : Int)
    (rate : ℚ) (metric : String) (gen : ℕ → ℚ) (h : 1 ≤ rate) :
    ∃ names : List String, names.Nodup ∧ names.toFinset = stats.toFinset ∧
      (UpdateStats stats delta rate metric gen).payloads =
        names.map (fun n => n ++ ":" ++ (toString delta ++ "|" ++ metric)) ∧
      (UpdateStats stats delta rate metric gen).payloads.length =
        stats.toFinset.card := by
  obtain ⟨names, h1, h2, h3⟩ :=
    foldl_mapInsert_const (toString delta ++ "|" ++ metric) stats []
      List.nodup_nil
  have h2a : names.toFinset = stats.toFinset := by simpa using h2
  have h3a : stats.foldl
      (fun m stat => mapInsert m stat (toString delta ++ "|" ++ metric)) [] =
      names.map (fun k => (k, toString delta ++ "|" ++ metric)) := by
    simpa using h3
  refine ⟨names, h1, h2a, ?_, ?_⟩
  · show (Send (stats.foldl
        (fun m stat => mapInsert m stat (toString delta ++ "|" ++ metric)) [])
        rate gen).payloads = _
    rw [h3a, Send_unsampled _ _ (not_lt.mpr h), List.map_map]
    rfl
  · show (Send (stats.foldl
        (fun m stat => mapInsert m stat (toString delta ++ "|" ++ metric)) [])
        rate gen).payloads.length = _
    rw [h3a, Send_unsampled _ _ (not_lt.mpr h), List.length_map, List.length_map,
      ← h2a]
    exact (List.toFinset_card_of_nodup h1).symm

theorem updateStats_distinct_writes_witness :
    ∃ names : List String, names.Nodup ∧
      names.toFinset = (["a", "b", "a"] : List String).toFinset ∧
      (UpdateStats ["a", "b", "a"] 2 1 "c" (fun _ => 0)).payloads =
        names.map (fun n => n ++ ":" ++ (toString (2 : Int) ++ "|" ++ "c")) ∧
      (UpdateStats ["a", "b", "a"] 2 1 "c" (fun _ => 0)).payloads.length =
        (["a", "b", "a"] : List String).toFinset.card :=
  updateStats_distinct_writes ["a", "b", "a"] 2 1 "c" (fun _ => 0) le_rfl

theorem send_same_second_same_decision_witness :
    (fun (_ : Int) (_ : ℕ) => (0 : ℚ)) 5 0 =
      (fun (_ : Int) (_ : ℕ) => (0 : ℚ)) 5 0 ∧
    ((SendAt (fun _ _ => 0) [("x", "1|c")] (1 / 2) 5).payloads = [] ↔
      (SendAt (fun _ _ => 0) [("y", "2|c")] (1 / 2) 5).payloads = []) :=
  send_same_second_same_decision (fun _ _ => 0) [("x", "1|c")] [("y", "2|c")]
    (1 / 2) 5 5 one_half_lt_one rfl (by simp) (by simp)

end Statsd
